import Mathlib

/-!
Shallow embedding of `src/auto_images3.py` (CSV Image Link Fetcher).

The script has no top-level functions besides `safe_filename`, `get_image_url`,
`sess`, `log` and `reset_app`; the upload handler, the enrichment loop and the
ZIP build are module-level code under Streamlit `if` blocks.  We embed them as
explicit functions:

* a `Row` is a Python dict row from `csv.DictReader`: an ordered list of
  field-name/value pairs; `rowGet` is `dict.get` with a default, `rowSet` is
  `row[k] = v` (which overwrites in place, or appends a new key at the end,
  matching Python dict insertion-order semantics);
* the external image search (`DDGS().images(...)`) is a parameter
  `provider : String → Except String (List Candidate)`: it either raises
  (`.error msg`) or returns an ordered candidate list, each candidate exposing
  an `image` URL field;
* `random.uniform(1, 3)` is a parameter `delay : Nat → ℚ` giving the value
  drawn for each row;
* the observable side effects of the loop (`log`, `progress.progress`,
  `time.sleep`, and each call into the provider) are recorded as an `Event`
  trace;
* `csv.DictWriter` (default `extrasaction` = raise, `restval` = the empty
  string) is `dictToList`/`writeCsv`: it raises `ValueError` when a row dict
  has a key outside `fieldnames`;
* the Streamlit session store is a partial map from string keys to values,
  with every app-managed key namespaced through `sess`.
-/

namespace AutoImages

/-- A CSV record as produced by `csv.DictReader`: an ordered association list
from column name to value (a Python dict preserves insertion order). -/
abbrev Row := List (String × String)

/-- `row.get(k, dflt)` on a Python dict: value of the first matching key,
else the default. -/
def rowGet (row : Row) (k dflt : String) : String :=
  match row.find? (fun p => p.1 == k) with
  | some p => p.2
  | none => dflt

/-- `row[k] = v` on a Python dict: overwrite the value in place when the key
exists, otherwise append the new key at the end. -/
def rowSet (row : Row) (k v : String) : Row :=
  if row.any (fun p => p.1 == k) then
    row.map (fun p => if p.1 == k then (k, v) else p)
  else
    row ++ [(k, v)]

/-- The whitespace characters Python's `str.strip()` removes (ASCII range):
space, tab, newline, carriage return, vertical tab, form feed. -/
def isPySpace (c : Char) : Bool :=
  c = ' ' || c = '\t' || c = '\n' || c = '\r'
    || c = Char.ofNat 11 || c = Char.ofNat 12

/-- Python `str.strip()` with no arguments: remove leading and trailing
whitespace. -/
def strip (s : String) : String :=
  ⟨((s.data.dropWhile isPySpace).reverse.dropWhile isPySpace).reverse⟩

/-- One result of `DDGS().images(...)`: a dict exposing at least an `image`
URL field. -/
structure Candidate where
  image : String
deriving DecidableEq, Repr

/-- The external image-search call for one query: it either returns an ordered
candidate list or raises a fault carrying a message. -/
abbrev Provider := String → Except String (List Candidate)

/-- The body of `get_image_url` without the `try`/`except` wrapper
(lines 19-23): run the search; if `results` is falsy return `''`, otherwise
return `results[0]['image']`. -/
def get_image_url_body (provider : Provider) (desc : String) :
    Except String String :=
  match provider desc with
  | .error e => .error e
  | .ok results =>
    match results with
    | [] => .ok ""
    | c :: _ => .ok c.image

/-- `get_image_url` as written (lines 17-25): the body wrapped in
`try: ... except Exception as e: raise e`, which re-raises the caught fault
unchanged. -/
def get_image_url (provider : Provider) (desc : String) :
    Except String String :=
  match get_image_url_body provider desc with
  | .ok v => .ok v
  | .error e => .error e

/-- Observable side effects of the processing block: a provider call, a `log`
line, a `progress.progress(completed / total)` update (kept as the exact pair),
and a `time.sleep(d)` pause. -/
inductive Event where
  | lookup (row : Nat) (query : String)
  | log (msg : String)
  | progress (completed total : Nat)
  | sleep (d : ℚ)
deriving DecidableEq, Repr

/-- Recognize a `sleep` event. -/
def Event.isSleep : Event → Bool
  | .sleep _ => true
  | _ => false

/-- Recognize a `progress` event. -/
def Event.isProgress : Event → Bool
  | .progress _ _ => true
  | _ => false

/-- Recognize a `log` event. -/
def Event.isLog : Event → Bool
  | .log _ => true
  | _ => false

/-- Recognize a provider call made for row `i`. -/
def isLookupFor (i : Nat) : Event → Bool
  | .lookup j _ => j == i
  | _ => false

/-- Number of provider calls made for row `i` in a trace. -/
def lookupCount (evs : List Event) (i : Nat) : Nat :=
  (evs.filter (isLookupFor i)).length

/-- Log line of line 95 for row `i` (0-based; the message shows `i+1`). -/
def skippedMsg (i : Nat) : String :=
  "⚠️ Row " ++ toString (i + 1) ++ ": empty description – skipped"

/-- Log line of line 99. -/
def searchingMsg (i : Nat) (desc : String) : String :=
  "🔍 Row " ++ toString (i + 1) ++ ": searching image URL for '"
    ++ desc.take 60 ++ "…'"

/-- Log line of line 102. -/
def foundMsg (i : Nat) (url : String) : String :=
  "✅ Row " ++ toString (i + 1) ++ ": found URL " ++ url.take 60 ++ "…"

/-- Log line of line 105. -/
def notFoundMsg (i : Nat) : String :=
  "⚠️ Row " ++ toString (i + 1) ++ ": no image URL found"

/-- Log line of line 110. -/
def errorLogMsg (i : Nat) (e : String) : String :=
  "❌ Row " ++ toString (i + 1) ++ ": error – " ++ e

/-- One iteration of the enrichment loop (lines 92-111) for row index `i` of
`n` rows, with `delay` the value `random.uniform(1, 3)` returns this turn.
Returns the updated row and the emitted events.  Note that
`progress.progress((idx + 1) / len(rows))` and `time.sleep(...)` sit inside
the `try` block after the lookup, so they run only when the lookup attempt
completes without raising; the `except` branch only logs and clears the
field. -/
def stepRow (provider : Provider) (delay : ℚ) (n i : Nat) (row : Row) :
    Row × List Event :=
  let desc := strip (rowGet row "description" "")
  if desc = "" then
    (rowSet row "image" "", [.log (skippedMsg i)])
  else
    match get_image_url provider desc with
    | .error e =>
      (rowSet row "image" "",
        [.log (searchingMsg i desc), .lookup i desc,
         .log (errorLogMsg i e)])
    | .ok url =>
      if url ≠ "" then
        (rowSet row "image" url,
          [.log (searchingMsg i desc), .lookup i desc,
           .log (foundMsg i url), .progress (i + 1) n, .sleep delay])
      else
        (rowSet row "image" "",
          [.log (searchingMsg i desc), .lookup i desc,
           .log (notFoundMsg i), .progress (i + 1) n, .sleep delay])

/-- The `for idx, row in enumerate(rows)` loop, indexed from `idx`, over `n`
total rows.  `provider j` and `delay j` are the provider behavior and drawn
delay for the call made at row `j`. -/
def enrichLoop (provider : Nat → Provider) (delay : Nat → ℚ) (n : Nat) :
    Nat → List Row → List Row × List Event
  | _, [] => ([], [])
  | idx, row :: rest =>
    let step := stepRow (provider idx) (delay idx) n idx row
    let tail := enrichLoop provider delay n (idx + 1) rest
    (step.1 :: tail.1, step.2 ++ tail.2)

/-- The whole enrichment loop over the uploaded rows (lines 92-111). -/
def processRows (provider : Nat → Provider) (delay : Nat → ℚ)
    (rows : List Row) : List Row × List Event :=
  enrichLoop provider delay rows.length 0 rows

/-- `csv.DictWriter._dict_to_list` with the default `extrasaction` (raise) and
`restval` (empty string): raise `ValueError` if the row dict has a key outside
`fieldnames`, otherwise emit the values in `fieldnames` order. -/
def dictToList (fieldnames : List String) (row : Row) :
    Except String (List String) :=
  let wrong := (row.map Prod.fst).filter (fun k => ¬ fieldnames.contains k)
  if wrong ≠ [] then
    .error ("dict contains fields not in fieldnames: "
      ++ String.intercalate ", " wrong)
  else
    .ok (fieldnames.map (fun f => rowGet row f ""))

/-- Lines 118-119: `DictWriter(...).writeheader()` then
`DictWriter(...).writerows(rows)`, both constructed with the session's
`fieldnames` unchanged.  The CSV is modelled as its list of records: the
header row followed by the data rows. -/
def writeCsv (fieldnames : List String) (rows : List Row) :
    Except String (List (List String)) :=
  match rows.mapM (dictToList fieldnames) with
  | .error e => .error e
  | .ok dataRows => .ok (fieldnames :: dataRows)

/-- Lines 113-121: build the ZIP holding the single entry `updated.csv`
written from the enriched rows. -/
def buildZip (fieldnames : List String) (rows : List Row) :
    Except String (List (String × List (List String))) :=
  match writeCsv fieldnames rows with
  | .error e => .error e
  | .ok content => .ok [("updated.csv", content)]

/-- The Start-Processing block (lines 88-122): log the start banner, run the
enrichment loop, then build the result archive.  On success the session's
`zip_ready` is set (the job is Complete); an exception escaping the block is
`.error`. -/
def startProcessing (provider : Nat → Provider) (delay : Nat → ℚ)
    (fieldnames : List String) (rows : List Row) :
    Except String (List Row × List Event ×
      List (String × List (List String))) :=
  let done := processRows provider delay rows
  match buildZip fieldnames done.1 with
  | .error e => .error e
  | .ok zip =>
    .ok (done.1, Event.log "🚀 Starting image link fetch…" :: done.2, zip)

/-- The app-managed pieces of one logical session's state (the keys iterated
at lines 36 and 47), projected at one session id: uploaded filename, parsed
rows, field names, finished archive, and the accumulated log buffer. -/
structure SessionState where
  csv_uploaded : Option String
  rows : List Row
  fieldnames : List String
  zip_ready : Option (List (String × List (List String)))
  log_buffer : List String
deriving DecidableEq, Repr

/-- The upload handler (lines 52-78), run only while `csv_uploaded` is unset.
`parsed` is the outcome of the external decode + `csv.DictReader` pipeline:
either the rows and field names, or a raised fault message.  The handler
first logs the detected encoding (line 61, inside the `try`), then on parse
success validates the `description` column: missing column shows an error
without touching the upload keys; success commits filename, rows and field
names.  A parse fault shows an error and logs it.  Returns the new state and
the `st.error` message, if any. -/
def uploadHandler (s : SessionState) (filename encoding : String)
    (parsed : Except String (List Row × List String)) :
    SessionState × Option String :=
  if s.csv_uploaded ≠ none then (s, none)
  else
    let s1 := { s with
      log_buffer := s.log_buffer ++ ["Detected encoding: " ++ encoding] }
    match parsed with
    | .error e =>
      ({ s1 with
          log_buffer := s1.log_buffer ++ ["❌ CSV read error: " ++ e] },
        some ("Failed to read CSV: " ++ e))
    | .ok (rows, fieldnames) =>
      if "description" ∈ fieldnames then
        ({ s1 with
            csv_uploaded := some filename
            rows := rows
            fieldnames := fieldnames }, none)
      else
        (s1, some "CSV must contain a 'description' column.")

/-- `sess` (lines 28-30): namespace a state key under the session id,
`f"{sid}_{key}"`. -/
def sess (sid key : String) : String := sid ++ "_" ++ key

/-- The app-managed session-state keys (lines 36-37, 42-44, 47-48): every
read and write of rows, logs, filename, field names or archive bytes in the
script goes through `sess` applied to one of these. -/
def stateKeys : List String :=
  ["csv_uploaded", "rows", "fieldnames", "zip_ready", "log_buffer"]

/-- The Streamlit session store, as a partial map from string keys to
values. -/
abbrev Store (α : Type) := String → Option α

/-- Writing one key of the store (`st.session_state[k] = v`). -/
def storeSet {α : Type} (σ : Store α) (k : String) (v : α) : Store α :=
  fun q => if q = k then some v else σ q

/-! ### Structural lemmas about the enrichment loop -/

lemma stepRow_fst (pr : Provider) (dl : ℚ) (n i : Nat) (row : Row) :
    ∃ v, (stepRow pr dl n i row).1 = rowSet row "image" v := by
  simp only [stepRow]
  repeat' split
  all_goals exact ⟨_, rfl⟩

lemma enrichLoop_length (p : Nat → Provider) (d : Nat → ℚ) (n : Nat) :
    ∀ (rows : List Row) (idx : Nat),
      (enrichLoop p d n idx rows).1.length = rows.length := by
  intro rows
  induction rows with
  | nil => intro idx; rfl
  | cons row rest ih => intro idx; simp [enrichLoop, ih]

lemma enrichLoop_fst_getElem (p : Nat → Provider) (d : Nat → ℚ) (n : Nat) :
    ∀ (rows : List Row) (idx i : Nat) (h : i < rows.length),
      (enrichLoop p d n idx rows).1[i]? =
        some (stepRow (p (idx + i)) (d (idx + i)) n (idx + i)
          (rows.get ⟨i, h⟩)).1 := by
  intro rows
  induction rows with
  | nil => intro idx i h; exact absurd h (by simp)
  | cons row rest ih =>
    intro idx i h
    cases i with
    | zero => simp [enrichLoop]
    | succ j =>
      have hj : j < rest.length := by simpa using Nat.lt_of_succ_lt_succ h
      have hrec := ih (idx + 1) j hj
      rw [show idx + 1 + j = idx + (j + 1) from by omega] at hrec
      simp only [enrichLoop, List.getElem?_cons_succ]
      exact hrec

lemma enrichLoop_events_mem (p : Nat → Provider) (d : Nat → ℚ) (n : Nat) :
    ∀ (rows : List Row) (idx : Nat) (e : Event),
      e ∈ (enrichLoop p d n idx rows).2 ↔
        ∃ i, ∃ h : i < rows.length,
          e ∈ (stepRow (p (idx + i)) (d (idx + i)) n (idx + i)
            (rows.get ⟨i, h⟩)).2 := by
  intro rows
  induction rows with
  | nil => intro idx e; simp [enrichLoop]
  | cons row rest ih =>
    intro idx e
    simp only [enrichLoop, List.mem_append, ih (idx + 1) e]
    constructor
    · rintro (hmem | ⟨j, hj, hmem⟩)
      · exact ⟨0, by simp, by simpa using hmem⟩
      · refine ⟨j + 1, by simp only [List.length_cons]; omega, ?_⟩
        have harith : idx + 1 + j = idx + (j + 1) := by omega
        simpa [harith] using hmem
    · rintro ⟨i, hi, hmem⟩
      cases i with
      | zero => exact Or.inl (by simpa using hmem)
      | succ j =>
        refine Or.inr ⟨j, by simpa using Nat.lt_of_succ_lt_succ hi, ?_⟩
        have harith : idx + 1 + j = idx + (j + 1) := by omega
        simpa [harith] using hmem

lemma lookupCount_append (a b : List Event) (i : Nat) :
    lookupCount (a ++ b) i = lookupCount a i + lookupCount b i := by
  simp [lookupCount, List.filter_append]

lemma stepRow_lookupCount (pr : Provider) (dl : ℚ) (n j : Nat) (row : Row)
    (i : Nat) :
    lookupCount (stepRow pr dl n j row).2 i =
      if j = i ∧ strip (rowGet row "description" "") ≠ "" then 1 else 0 := by
  by_cases hd : strip (rowGet row "description" "") = ""
  · simp [stepRow, hd, lookupCount, isLookupFor]
  · by_cases hij : j = i
    · subst hij
      simp only [stepRow, hd, if_neg hd]
      rcases hres : get_image_url pr (strip (rowGet row "description" "")) with
        e | url
      · simp [lookupCount, isLookupFor, hd]
      · by_cases hu : url = "" <;> simp [lookupCount, isLookupFor, hd, hu]
    · simp only [stepRow, if_neg hd]
      rcases hres : get_image_url pr (strip (rowGet row "description" "")) with
        e | url
      · simp [lookupCount, isLookupFor, hij, hd]
      · by_cases hu : url = "" <;> simp [lookupCount, isLookupFor, hij, hd, hu]

lemma enrichLoop_lookupCount (p : Nat → Provider) (d : Nat → ℚ) (n : Nat) :
    ∀ (rows : List Row) (idx k : Nat),
      lookupCount (enrichLoop p d n idx rows).2 k =
        if idx ≤ k ∧ k - idx < rows.length then
          (if strip (rowGet (rows.getD (k - idx) []) "description" "") ≠ ""
            then 1 else 0)
        else 0 := by
  intro rows
  induction rows with
  | nil => intro idx k; simp [enrichLoop, lookupCount]
  | cons row rest ih =>
    intro idx k
    simp only [enrichLoop]
    rw [lookupCount_append, stepRow_lookupCount, ih (idx + 1) k]
    by_cases hk : idx = k
    · subst hk
      have h1 : ¬ (idx + 1 ≤ idx ∧ idx - (idx + 1) < rest.length) := by omega
      have h2 : idx ≤ idx ∧ idx - idx < (row :: rest).length := by
        simp only [List.length_cons]
        omega
      rw [if_neg h1, if_pos h2]
      simp
    · rw [if_neg (by tauto)]
      by_cases h3 : idx + 1 ≤ k ∧ k - (idx + 1) < rest.length
      · have h4 : idx ≤ k ∧ k - idx < (row :: rest).length := by
          simp only [List.length_cons]
          omega
        rw [if_pos h3, if_pos h4]
        have hidx : k - idx = (k - (idx + 1)) + 1 := by omega
        rw [hidx, List.getD_cons_succ, Nat.zero_add]
      · have h5 : ¬ (idx ≤ k ∧ k - idx < (row :: rest).length) := by
          simp only [List.length_cons]
          omega
        rw [if_neg h3, if_neg h5]

lemma stepRow_skip (pr : Provider) (dl : ℚ) (n i : Nat) (row : Row)
    (hd : strip (rowGet row "description" "") = "") :
    stepRow pr dl n i row = (rowSet row "image" "", [.log (skippedMsg i)]) := by
  simp [stepRow, hd]

lemma stepRow_error (pr : Provider) (dl : ℚ) (n i : Nat) (row : Row)
    (e : String) (hd : strip (rowGet row "description" "") ≠ "")
    (he : get_image_url pr (strip (rowGet row "description" "")) = .error e) :
    stepRow pr dl n i row =
      (rowSet row "image" "",
        [.log (searchingMsg i (strip (rowGet row "description" ""))),
         .lookup i (strip (rowGet row "description" "")),
         .log (errorLogMsg i e)]) := by
  simp [stepRow, hd, he]

lemma stepRow_has_log (pr : Provider) (dl : ℚ) (n i : Nat) (row : Row) :
    ∃ m, Event.log m ∈ (stepRow pr dl n i row).2 := by
  by_cases hd : strip (rowGet row "description" "") = ""
  · exact ⟨skippedMsg i, by simp [stepRow, hd]⟩
  · rcases hres : get_image_url pr (strip (rowGet row "description" "")) with
      e | url
    · exact ⟨searchingMsg i (strip (rowGet row "description" "")),
        by simp [stepRow, hd, hres]⟩
    · by_cases hu : url = ""
      · exact ⟨searchingMsg i (strip (rowGet row "description" "")),
          by simp [stepRow, hd, hres, hu]⟩
      · exact ⟨searchingMsg i (strip (rowGet row "description" "")),
          by simp [stepRow, hd, hres, hu]⟩

lemma stepRow_progress_mem (pr : Provider) (dl : ℚ) (n i : Nat) (row : Row)
    (a b : Nat) :
    Event.progress a b ∈ (stepRow pr dl n i row).2 ↔
      a = i + 1 ∧ b = n ∧ strip (rowGet row "description" "") ≠ "" ∧
        ∃ url, get_image_url pr (strip (rowGet row "description" "")) =
          .ok url := by
  by_cases hd : strip (rowGet row "description" "") = ""
  · simp [stepRow, hd]
  · rcases hres : get_image_url pr (strip (rowGet row "description" "")) with
      e | url
    · simp [stepRow, hd, hres]
    · by_cases hu : url = "" <;>
        simp [stepRow, hd, hres, hu]

lemma getD_eq_get_of_lt (rows : List Row) (i : Nat) (h : i < rows.length) :
    rows.getD i [] = rows.get ⟨i, h⟩ := by
  simp [List.getD, List.getElem?_eq_getElem h]

lemma stepRow_sleep_mem (pr : Provider) (dl : ℚ) (n i : Nat) (row : Row)
    (q : ℚ) :
    Event.sleep q ∈ (stepRow pr dl n i row).2 ↔
      q = dl ∧ strip (rowGet row "description" "") ≠ "" ∧
        ∃ url, get_image_url pr (strip (rowGet row "description" "")) =
          .ok url := by
  by_cases hd : strip (rowGet row "description" "") = ""
  · simp [stepRow, hd]
  · rcases hres : get_image_url pr (strip (rowGet row "description" "")) with
      e | url
    · simp [stepRow, hd, hres]
    · by_cases hu : url = "" <;>
        simp [stepRow, hd, hres, hu]

/-! ### Claim theorems -/

/-- Claim C10: `get_image_url` is extensionally equivalent to its body without
the `try`/`except` wrapper — it returns the empty string when the provider
returns no candidates, otherwise the `image` field of the first candidate, and
re-raises any provider exception unchanged, never converting a fault into a
returned value. -/
theorem get_image_url_refines_body (provider : Provider) (desc : String) :
    get_image_url provider desc = get_image_url_body provider desc ∧
    get_image_url provider desc =
      (match provider desc with
       | .error e => .error e
       | .ok [] => .ok ""
       | .ok (c :: _) => .ok c.image) := by
  constructor
  · rcases hb : get_image_url_body provider desc with e | v <;>
      simp [get_image_url, hb]
  · rcases hp : provider desc with e | results
    · simp [get_image_url, get_image_url_body, hp]
    · rcases results with _ | ⟨c, rest⟩ <;>
        simp [get_image_url, get_image_url_body, hp]

/-- Claim C4: the enrichment loop returns exactly one output row per input
row, in input order, and each output row is its input row changed only by
assigning the `"image"` field. -/
theorem processRows_preserves_rows (p : Nat → Provider) (d : Nat → ℚ)
    (rows : List Row) :
    (processRows p d rows).1.length = rows.length ∧
    ∀ i, ∀ h : i < rows.length, ∃ v,
      (processRows p d rows).1[i]? =
        some (rowSet (rows.get ⟨i, h⟩) "image" v) := by
  refine ⟨enrichLoop_length p d rows.length rows 0, ?_⟩
  intro i h
  obtain ⟨v, hv⟩ := stepRow_fst (p (0 + i)) (d (0 + i)) rows.length (0 + i)
    (rows.get ⟨i, h⟩)
  refine ⟨v, ?_⟩
  rw [processRows, enrichLoop_fst_getElem p d rows.length rows 0 i h, hv]

/-- Witness for C4 at a concrete batch: one row, lookup finding nothing. -/
theorem processRows_preserves_rows_witness :
    (0 < ([[("description", "cat")]] : List Row).length) ∧
    ∃ v, (processRows (fun _ _ => .ok []) (fun _ => 2)
        [[("description", "cat")]]).1[0]? =
      some (rowSet (([[("description", "cat")]] : List Row).get
        ⟨0, by decide⟩) "image" v) :=
  ⟨by decide,
    (processRows_preserves_rows (fun _ _ => .ok []) (fun _ => 2)
      [[("description", "cat")]]).2 0 (by decide)⟩

/-- Claim C5: a row whose description is empty or all-whitespace after
trimming triggers no lookup call, gets `"image"` set to exactly the empty
string, and its iteration emits exactly the one "skipped" log line. -/
theorem emptyDescription_skipped (p : Nat → Provider) (d : Nat → ℚ)
    (rows : List Row) (i : Nat) (h : i < rows.length)
    (hd : strip (rowGet (rows.get ⟨i, h⟩) "description" "") = "") :
    (processRows p d rows).1[i]? =
      some (rowSet (rows.get ⟨i, h⟩) "image" "") ∧
    lookupCount (processRows p d rows).2 i = 0 ∧
    Event.log (skippedMsg i) ∈ (processRows p d rows).2 ∧
    stepRow (p i) (d i) rows.length i (rows.get ⟨i, h⟩) =
      (rowSet (rows.get ⟨i, h⟩) "image" "", [.log (skippedMsg i)]) := by
  have hstep := stepRow_skip (p i) (d i) rows.length i (rows.get ⟨i, h⟩) hd
  refine ⟨?_, ?_, ?_, hstep⟩
  · rw [processRows, enrichLoop_fst_getElem p d rows.length rows 0 i h]
    simp only [Nat.zero_add]
    rw [hstep]
  · rw [processRows, enrichLoop_lookupCount p d rows.length rows 0 i]
    have hcond : 0 ≤ i ∧ i - 0 < rows.length := ⟨Nat.zero_le i, by omega⟩
    rw [if_pos hcond]
    simp only [Nat.sub_zero, getD_eq_get_of_lt rows i h]
    have hd2 : strip (rowGet rows[i] "description" "") = "" := by
      simpa using hd
    simp [hd2]
  · rw [processRows, enrichLoop_events_mem p d rows.length rows 0]
    refine ⟨i, h, ?_⟩
    simp only [Nat.zero_add]
    rw [hstep]
    simp

/-- Witness for C5: a one-row batch whose description is a single space. -/
theorem emptyDescription_skipped_witness :
    (0 < ([[("description", " ")]] : List Row).length) ∧
    (strip (rowGet (([[("description", " ")]] : List Row).get
      ⟨0, by decide⟩) "description" "") = "") ∧
    lookupCount (processRows (fun _ _ => .ok [⟨"u"⟩]) (fun _ => 2)
      [[("description", " ")]]).2 0 = 0 :=
  ⟨by decide, by decide,
    (emptyDescription_skipped (fun _ _ => .ok [⟨"u"⟩]) (fun _ => 2)
      [[("description", " ")]] 0 (by decide) (by decide)).2.1⟩

/-- Claim C3: when the provider lookup raises for a row, the fault is caught
at that row's boundary only — that row's `"image"` field becomes the empty
string, a log line carrying the fault message is appended, exactly one lookup
call is made for the row (no retry), and every row of the batch (including
all later ones) is still processed by its own iteration. -/
theorem providerFault_absorbed (p : Nat → Provider) (d : Nat → ℚ)
    (rows : List Row) (i : Nat) (e : String) (h : i < rows.length)
    (hd : strip (rowGet (rows.get ⟨i, h⟩) "description" "") ≠ "")
    (he : p i (strip (rowGet (rows.get ⟨i, h⟩) "description" "")) =
      .error e) :
    (processRows p d rows).1.length = rows.length ∧
    (processRows p d rows).1[i]? =
      some (rowSet (rows.get ⟨i, h⟩) "image" "") ∧
    Event.log (errorLogMsg i e) ∈ (processRows p d rows).2 ∧
    (∃ intro, errorLogMsg i e = intro ++ e) ∧
    lookupCount (processRows p d rows).2 i = 1 ∧
    ∀ j, ∀ hj : j < rows.length,
      (processRows p d rows).1[j]? =
        some (stepRow (p j) (d j) rows.length j (rows.get ⟨j, hj⟩)).1 := by
  have hraise : get_image_url (p i)
      (strip (rowGet (rows.get ⟨i, h⟩) "description" "")) = .error e := by
    simp only [get_image_url, get_image_url_body, he]
  have hstep := stepRow_error (p i) (d i) rows.length i (rows.get ⟨i, h⟩) e
    hd hraise
  refine ⟨enrichLoop_length p d rows.length rows 0, ?_, ?_, ?_, ?_, ?_⟩
  · rw [processRows, enrichLoop_fst_getElem p d rows.length rows 0 i h]
    simp only [Nat.zero_add]
    rw [hstep]
  · rw [processRows, enrichLoop_events_mem p d rows.length rows 0]
    refine ⟨i, h, ?_⟩
    simp only [Nat.zero_add]
    rw [hstep]
    simp
  · exact ⟨"❌ Row " ++ toString (i + 1) ++ ": error – ", rfl⟩
  · rw [processRows, enrichLoop_lookupCount p d rows.length rows 0 i]
    have hcond : 0 ≤ i ∧ i - 0 < rows.length := ⟨Nat.zero_le i, by omega⟩
    rw [if_pos hcond]
    simp only [Nat.sub_zero, getD_eq_get_of_lt rows i h]
    have hd2 : strip (rowGet rows[i] "description" "") ≠ "" := by
      simpa using hd
    simp [hd2]
  · intro j hj
    rw [processRows, enrichLoop_fst_getElem p d rows.length rows 0 j hj]
    simp only [Nat.zero_add]

/-- Witness for C3: a one-row batch whose lookup raises `"boom"`. -/
theorem providerFault_absorbed_witness :
    (0 < ([[("description", "cat")]] : List Row).length) ∧
    (strip (rowGet (([[("description", "cat")]] : List Row).get
      ⟨0, by decide⟩) "description" "") ≠ "") ∧
    Event.log (errorLogMsg 0 "boom") ∈
      (processRows (fun _ _ => .error "boom") (fun _ => 2)
        [[("description", "cat")]]).2 :=
  ⟨by decide, by decide,
    (providerFault_absorbed (fun _ _ => .error "boom") (fun _ => 2)
      [[("description", "cat")]] 0 "boom" (by decide) (by decide)
      (by rfl)).2.2.1⟩

/-- Counterexample to C7 as stated: a one-row batch whose single row has an
all-whitespace description.  The row is visited (its skip line is logged),
yet no `progress` update is ever issued — in particular the indicator is
never advanced to 1/1 — because `progress.progress((idx + 1) / len(rows))`
sits inside the `try` block after the lookup and the skip branch `continue`s
before it. -/
theorem progress_not_advanced_on_skip :
    Event.log (skippedMsg 0) ∈
      (processRows (fun _ _ => .ok []) (fun _ => 2)
        [[("description", " ")]]).2 ∧
    Event.progress 1 1 ∉
      (processRows (fun _ _ => .ok []) (fun _ => 2)
        [[("description", " ")]]).2 := by
  constructor <;> decide

/-- Claim C7, amended: every visited row emits at least one log line, but the
progress indicator is advanced to (i+1)/total exactly for the rows whose
lookup attempt completes without raising (found or not-found); skipped and
errored rows advance no progress. -/
theorem perRow_log_and_progress (p : Nat → Provider) (d : Nat → ℚ)
    (rows : List Row) (i : Nat) (h : i < rows.length) :
    (∃ m, Event.log m ∈
        (stepRow (p i) (d i) rows.length i (rows.get ⟨i, h⟩)).2 ∧
      Event.log m ∈ (processRows p d rows).2) ∧
    (Event.progress (i + 1) rows.length ∈ (processRows p d rows).2 ↔
      strip (rowGet (rows.get ⟨i, h⟩) "description" "") ≠ "" ∧
        ∃ url, get_image_url (p i)
          (strip (rowGet (rows.get ⟨i, h⟩) "description" "")) = .ok url) := by
  constructor
  · obtain ⟨m, hm⟩ := stepRow_has_log (p i) (d i) rows.length i
      (rows.get ⟨i, h⟩)
    refine ⟨m, hm, ?_⟩
    rw [processRows, enrichLoop_events_mem p d rows.length rows 0]
    exact ⟨i, h, by simpa using hm⟩
  · rw [processRows, enrichLoop_events_mem p d rows.length rows 0]
    constructor
    · rintro ⟨j, hj, hmem⟩
      simp only [Nat.zero_add] at hmem
      rw [stepRow_progress_mem] at hmem
      obtain ⟨hij, -, hd, hurl⟩ := hmem
      have : j = i := by omega
      subst this
      exact ⟨hd, hurl⟩
    · rintro ⟨hd, url, hurl⟩
      refine ⟨i, h, ?_⟩
      simp only [Nat.zero_add]
      rw [stepRow_progress_mem]
      exact ⟨rfl, rfl, hd, url, hurl⟩

/-- Witness for the amended C7: a one-row batch whose lookup succeeds with a
URL, so the progress event 1/1 is in the trace. -/
theorem perRow_log_and_progress_witness :
    (0 < ([[("description", "cat")]] : List Row).length) ∧
    (Event.progress 1 1 ∈
      (processRows (fun _ _ => .ok [⟨"http://img"⟩]) (fun _ => 2)
        [[("description", "cat")]]).2 ↔
      strip (rowGet (([[("description", "cat")]] : List Row).get
        ⟨0, by decide⟩) "description" "") ≠ "" ∧
        ∃ url, get_image_url (fun _ => .ok [⟨"http://img"⟩])
          (strip (rowGet (([[("description", "cat")]] : List Row).get
            ⟨0, by decide⟩) "description" "")) = .ok url) :=
  ⟨by decide,
    (perRow_log_and_progress (fun _ _ => .ok [⟨"http://img"⟩]) (fun _ => 2)
      [[("description", "cat")]] 0 (by decide)).2⟩

/-- Counterexample to C8 as stated: a one-row batch whose lookup raises.
The failed lookup attempt happens (exactly one provider call is made for the
row), yet the trace contains no `sleep` at all — `time.sleep(random.uniform(1,
3))` sits inside the `try` block after the lookup, so a raising attempt skips
it, contradicting "after each successful or failed lookup attempt ... the
loop pauses". -/
theorem no_pause_after_failed_lookup :
    lookupCount (processRows (fun _ _ => .error "boom") (fun _ => 2)
      [[("description", "cat")]]).2 0 = 1 ∧
    (processRows (fun _ _ => .error "boom") (fun _ => 2)
      [[("description", "cat")]]).2.all (fun ev => !ev.isSleep) = true := by
  constructor <;> decide

/-- Claim C8, amended: assuming each drawn delay lies in the interval
[1, 3] (the value `random.uniform(1, 3)` returns), a row's iteration pauses
exactly when its lookup attempt completes without raising (found or
not-found) — not after skipped rows and not after raised faults — and every
pause in the batch trace has duration within [1, 3]. -/
theorem pause_after_nonraising_lookup (p : Nat → Provider) (d : Nat → ℚ)
    (rows : List Row) (i : Nat) (h : i < rows.length)
    (hdl : ∀ j, 1 ≤ d j ∧ d j ≤ 3) :
    ((stepRow (p i) (d i) rows.length i (rows.get ⟨i, h⟩)).2.any
        Event.isSleep = true ↔
      strip (rowGet (rows.get ⟨i, h⟩) "description" "") ≠ "" ∧
        ∃ url, get_image_url (p i)
          (strip (rowGet (rows.get ⟨i, h⟩) "description" "")) = .ok url) ∧
    (∀ q, Event.sleep q ∈ (processRows p d rows).2 → 1 ≤ q ∧ q ≤ 3) := by
  constructor
  · rw [List.any_eq_true]
    constructor
    · rintro ⟨ev, hmem, hsleep⟩
      rcases ev with _ | _ | _ | q
      case sleep =>
        rw [stepRow_sleep_mem] at hmem
        exact ⟨hmem.2.1, hmem.2.2⟩
      all_goals simp [Event.isSleep] at hsleep
    · rintro ⟨hd, url, hurl⟩
      refine ⟨Event.sleep (d i), ?_, rfl⟩
      rw [stepRow_sleep_mem]
      exact ⟨rfl, hd, url, hurl⟩
  · intro q hq
    rw [processRows, enrichLoop_events_mem p d rows.length rows 0] at hq
    obtain ⟨j, hj, hmem⟩ := hq
    simp only [Nat.zero_add] at hmem
    rw [stepRow_sleep_mem] at hmem
    rw [hmem.1]
    exact hdl j

/-- Witness for the amended C8: one row, constant delay 2, lookup succeeding,
so the iteration does pause. -/
theorem pause_after_nonraising_lookup_witness :
    (0 < ([[("description", "cat")]] : List Row).length) ∧
    (∀ _j : Nat, 1 ≤ (2 : ℚ) ∧ (2 : ℚ) ≤ 3) ∧
    ((stepRow ((fun _ _ => .ok [⟨"u"⟩]) 0) 2 1 0
        (([[("description", "cat")]] : List Row).get ⟨0, by decide⟩)).2.any
      Event.isSleep = true ↔
      strip (rowGet (([[("description", "cat")]] : List Row).get
        ⟨0, by decide⟩) "description" "") ≠ "" ∧
        ∃ url, get_image_url ((fun (_ : Nat) (_ : String) =>
            (.ok [⟨"u"⟩] : Except String (List Candidate))) 0)
          (strip (rowGet (([[("description", "cat")]] : List Row).get
            ⟨0, by decide⟩) "description" "")) = .ok url) :=
  ⟨by decide, fun _ => ⟨by norm_num, by norm_num⟩,
    (pause_after_nonraising_lookup (fun _ _ => .ok [⟨"u"⟩]) (fun _ => 2)
      [[("description", "cat")]] 0 (by decide)
      (fun _ => ⟨by norm_num, by norm_num⟩)).1⟩

/-- Counterexample to C6 as stated: uploading a parseable CSV that lacks a
`description` column does surface the validation error, but session state IS
mutated — the handler logs the detected-encoding line into the session's log
buffer (line 61) before validating, so the resulting session state differs
from the initial one. -/
theorem rejected_upload_mutates_log :
    (uploadHandler ⟨none, [], [], none, []⟩ "a.csv" "utf-8"
        (.ok ([[("name", "x")]], ["name"]))).2 =
      some "CSV must contain a 'description' column." ∧
    (uploadHandler ⟨none, [], [], none, []⟩ "a.csv" "utf-8"
        (.ok ([[("name", "x")]], ["name"]))).1 ≠
      (⟨none, [], [], none, []⟩ : SessionState) := by
  constructor <;> decide

/-- Claim C6, amended: if the uploaded file is not parseable as CSV or lacks
a `description` column, an error is surfaced to the user, the batch never
starts and the upload is not committed — filename, rows, field names and
archive state are unchanged (the filename stays unset, so the processing
block stays unreachable); only the session log buffer gains lines. -/
theorem invalid_upload_not_committed (s : SessionState)
    (filename encoding : String)
    (parsed : Except String (List Row × List String))
    (hs : s.csv_uploaded = none)
    (hbad : ∀ rows fns, parsed = .ok (rows, fns) → "description" ∉ fns) :
    (uploadHandler s filename encoding parsed).2.isSome = true ∧
    (uploadHandler s filename encoding parsed).1.csv_uploaded = none ∧
    (uploadHandler s filename encoding parsed).1.rows = s.rows ∧
    (uploadHandler s filename encoding parsed).1.fieldnames = s.fieldnames ∧
    (uploadHandler s filename encoding parsed).1.zip_ready = s.zip_ready ∧
    ∃ extra, (uploadHandler s filename encoding parsed).1.log_buffer =
      s.log_buffer ++ extra := by
  have hguard : ¬ s.csv_uploaded ≠ none := by simpa using hs
  rcases parsed with e | ⟨rows, fns⟩
  · refine ⟨?_, ?_, ?_, ?_, ?_, ?_⟩ <;>
      simp [uploadHandler, hguard, hs]
  · have hdesc : "description" ∉ fns := hbad rows fns rfl
    refine ⟨?_, ?_, ?_, ?_, ?_, ?_⟩ <;>
      simp [uploadHandler, hguard, hs, hdesc]

/-- Witness for the amended C6: pristine session, parse succeeds but the only
column is `name`. -/
theorem invalid_upload_not_committed_witness :
    ((⟨none, [], [], none, []⟩ : SessionState).csv_uploaded = none) ∧
    (∀ rows fns,
      (.ok ([[("name", "x")]], ["name"]) :
          Except String (List Row × List String)) = .ok (rows, fns) →
        "description" ∉ fns) ∧
    (uploadHandler ⟨none, [], [], none, []⟩ "a.csv" "utf-8"
      (.ok ([[("name", "x")]], ["name"]))).2.isSome = true :=
  ⟨rfl,
    fun rows fns hok => by
      cases hok
      decide,
    (invalid_upload_not_committed ⟨none, [], [], none, []⟩ "a.csv" "utf-8"
      (.ok ([[("name", "x")]], ["name"])) rfl
      (fun rows fns hok => by cases hok; decide)).1⟩

lemma append_tail_clash (x y l1 l2 : List Char) (h : x ++ l1 = y ++ l2)
    (hlen : l1.length ≤ l2.length)
    (hne : l1 ≠ l2.drop (l2.length - l1.length)) : False := by
  have h2 : x ++ l1 =
      (y ++ l2.take (l2.length - l1.length)) ++
        l2.drop (l2.length - l1.length) := by
    rw [List.append_assoc, List.take_append_drop]
    exact h
  have hl : l1.length = (l2.drop (l2.length - l1.length)).length := by
    simp only [List.length_drop]
    omega
  exact hne (List.append_inj' h2 hl).2

lemma sess_inj (sid1 sid2 k1 k2 : String) (h1 : k1 ∈ stateKeys)
    (h2 : k2 ∈ stateKeys) (h : sess sid1 k1 = sess sid2 k2) :
    sid1 = sid2 ∧ k1 = k2 := by
  have hd : sid1.data ++ ('_' :: k1.data) = sid2.data ++ ('_' :: k2.data) := by
    have hq := congrArg String.data h
    simpa [sess, String.data_append, List.append_assoc] using hq
  simp only [stateKeys] at h1 h2
  fin_cases h1 <;> fin_cases h2 <;>
    first
      | exact ⟨String.ext (List.append_inj' hd (by decide)).1, rfl⟩
      | exact (append_tail_clash _ _ _ _ hd (by decide) (by decide)).elim
      | exact (append_tail_clash _ _ _ _ hd.symm (by decide) (by decide)).elim

/-- Claim C9: two sessions with distinct session identifiers have disjoint
key footprints — for the app-managed state keys (filename, rows, field names,
archive bytes, log buffer), `sess` never maps two distinct session ids to the
same store key, so a write by one session under any of its namespaced keys
leaves every namespaced read of the other session unchanged. -/
theorem session_isolation {α : Type} (σ : Store α) (v : α)
    (sid1 sid2 k1 k2 : String) (h1 : k1 ∈ stateKeys) (h2 : k2 ∈ stateKeys)
    (hne : sid1 ≠ sid2) :
    sess sid1 k1 ≠ sess sid2 k2 ∧
    storeSet σ (sess sid1 k1) v (sess sid2 k2) = σ (sess sid2 k2) := by
  have hkey : sess sid1 k1 ≠ sess sid2 k2 :=
    fun hc => hne (sess_inj sid1 sid2 k1 k2 h1 h2 hc).1
  refine ⟨hkey, ?_⟩
  simp only [storeSet]
  exact if_neg (fun hc => hkey hc.symm)

/-- Witness for C9: sessions `alice` and `bob`; `alice` writes her `rows`
key, `bob`'s `log_buffer` key reads unchanged. -/
theorem session_isolation_witness :
    ("rows" ∈ stateKeys) ∧ ("log_buffer" ∈ stateKeys) ∧
    ("alice" ≠ "bob") ∧
    (sess "alice" "rows" ≠ sess "bob" "log_buffer" ∧
      storeSet (fun _ => (none : Option Nat)) (sess "alice" "rows") 5
          (sess "bob" "log_buffer") =
        (fun _ => (none : Option Nat)) (sess "bob" "log_buffer")) :=
  ⟨by decide, by decide, by decide,
    session_isolation (fun _ => none) 5 "alice" "bob" "rows" "log_buffer"
      (by decide) (by decide) (by decide)⟩

/-- Claim C1 (code bug): the ZIP build constructs both `csv.DictWriter`
objects with the session's original `fieldnames` and never appends
`"image"`.  Evaluated on a CSV with the single column `description`: with
one data row the enriched row carries the extra `"image"` key, so
`DictWriter.writerows` raises `ValueError` and no archive is produced at
all; with zero data rows the build succeeds but the written header is the
original field names WITHOUT `"image"` — in both cases contradicting the
claimed "header row = original field names with `image` appended". -/
theorem zip_build_header_lacks_image :
    startProcessing (fun _ _ => .ok [⟨"http://img"⟩]) (fun _ => 2)
        ["description"] [[("description", "cat")]] =
      .error "dict contains fields not in fieldnames: image" ∧
    startProcessing (fun _ _ => .ok [⟨"http://img"⟩]) (fun _ => 2)
        ["description"] [] =
      .ok ([], [.log "🚀 Starting image link fetch…"],
        [("updated.csv", [["description"]])]) := by
  constructor <;> rfl

/-- Claim C2 (code bug): a started batch on a validated CSV (parseable, with
a `description` column) does NOT always reach Complete.  Here every row-level
provider fault is absorbed by the loop as claimed, yet the batch still dies
afterward: the ZIP build's `DictWriter.writerows` raises `ValueError` because
the enrichment added an `"image"` key absent from `fieldnames`, so
`zip_ready` is never set and the archive is never ready. -/
theorem batch_raises_after_loop :
    startProcessing (fun _ _ => .error "network down") (fun _ => 2)
        ["description"] [[("description", "dog")]] =
      .error "dict contains fields not in fieldnames: image" := by
  rfl

end AutoImages
